import Mathlib

/-!
Verification development for the wadecrypter media decryption service.

The development shallowly embeds the fetch-verify-decrypt pipeline:
key expansion (MediaDecryption.expandMediaKey), authenticated decryption
(MediaDecryption.decryptData), key cleanup (MediaDecryption.secureKeyCleanup),
the category lookup tables, the retrying fetcher (MediaDownload.downloadMedia)
and the POST /decrypt route handler.

Bytes are modelled as Nat values below 256 inside List Nat.  The cryptographic
library primitives that the code calls (HMAC-SHA-256 via crypto.createHmac,
the AES-256 block cipher inside crypto.createDecipheriv) are external library
code, so they are taken as explicit function parameters, with the properties
the theorems need (output length, block-cipher inversion) as hypotheses.
Everything written by the repository itself (HKDF structure, CBC chaining,
PKCS7 padding removal, MAC check ordering, retry loop, error mapping) is
translated from the source.
-/

/-- JavaScript Buffer.slice(a, b) on an in-range pair of nonnegative indices:
the bytes at offsets [a, b). -/
def jsSlice (l : List Nat) (a b : Nat) : List Nat :=
  (l.drop a).take (b - a)

/-- Pointwise xor of two byte lists (the CBC chaining combination). -/
def xorBytes (a b : List Nat) : List Nat :=
  List.zipWith Nat.xor a b

/-! ## Lenient base64 decoding

Modelled on Node Buffer.from(s, base64): characters outside the base64
alphabet are skipped rather than rejected, padding contributes no data, and a
single leftover character is dropped.  Decoding is total: it never fails. -/

/-- Value of one base64 alphabet character; none for characters outside the
alphabet (those are skipped by the lenient decoder). -/
def base64CharVal (c : Char) : Option Nat :=
  if 65 ≤ c.toNat ∧ c.toNat ≤ 90 then some (c.toNat - 65)
  else if 97 ≤ c.toNat ∧ c.toNat ≤ 122 then some (c.toNat - 71)
  else if 48 ≤ c.toNat ∧ c.toNat ≤ 57 then some (c.toNat + 4)
  else if c.toNat = 43 ∨ c.toNat = 45 then some 62
  else if c.toNat = 47 ∨ c.toNat = 95 then some 63
  else none

/-- Reassemble bytes from a list of 6-bit values, 4 at a time; a trailing
group of 2 or 3 values yields 1 or 2 bytes, a single trailing value yields
nothing. -/
def b64Groups : List Nat → List Nat
  | a :: b :: c :: d :: rest =>
      (a * 4 + b / 16) :: (b % 16 * 16 + c / 4) :: (c % 4 * 64 + d) :: b64Groups rest
  | [a, b] => [a * 4 + b / 16]
  | [a, b, c] => [a * 4 + b / 16, b % 16 * 16 + c / 4]
  | _ => []

/-- Lenient base64 decoding of a string to bytes, total by construction. -/
def decodeBase64 (s : String) : List Nat :=
  b64Groups (s.data.filterMap base64CharVal)

/-! ## HKDF (HMAC-SHA-256-based), as invoked through crypto.hkdfSync -/

/-- Bytes of an ASCII domain-separation string. -/
def strBytes (s : String) : List Nat :=
  s.data.map Char.toNat

/-- HKDF-Expand block T(i); T(0) is empty, T(i+1) = HMAC(prk, T(i) ++ info ++ [i+1]). -/
def hkdfT (hmac : List Nat → List Nat → List Nat) (prk info : List Nat) : Nat → List Nat
  | 0 => []
  | i + 1 => hmac prk (hkdfT hmac prk info i ++ info ++ [i + 1])

/-- Concatenation T(1) ++ ... ++ T(n) of HKDF-Expand blocks. -/
def hkdfOkm (hmac : List Nat → List Nat → List Nat) (prk info : List Nat) : Nat → List Nat
  | 0 => []
  | n + 1 => hkdfOkm hmac prk info n ++ hkdfT hmac prk info (n + 1)

/-- crypto.hkdfSync: extract a pseudorandom key with HMAC(salt, ikm), then
expand with the info string and truncate to the requested length. -/
def hkdfSync (hmac : List Nat → List Nat → List Nat)
    (ikm salt info : List Nat) (len : Nat) : List Nat :=
  (hkdfOkm hmac (hmac salt ikm) info ((len + 31) / 32)).take len

/-! ## MediaDecryption.expandMediaKey -/

/-- The key set returned by expandMediaKey: cipherKey, macKey and iv slices of
the 112-byte expansion (the remaining 32 bytes are computed but discarded). -/
structure ExpandedKeySet where
  cipherKey : List Nat
  macKey : List Nat
  iv : List Nat
deriving DecidableEq, Repr

/-- Failure modes of expandMediaKey.  badKeyLength and badMediaType are the
two ValidationError throw sites; expandFailed is the catch-all wrapping of an
unexpected exception as a DecryptionError (unreachable for the total
library-primitive models used here). -/
inductive ExpandErr
  | badKeyLength (n : Nat)
  | badMediaType (t : String)
  | expandFailed
deriving DecidableEq, Repr

/-- True exactly on the failure modes raised as ValidationError. -/
def ExpandErr.isValidation : ExpandErr → Bool
  | .badKeyLength _ => true
  | .badMediaType _ => true
  | .expandFailed => false

/-- The applicationInfo table: domain-separation string per media type. -/
def applicationInfo (mediaType : String) : Option String :=
  if mediaType = "image" then some ("WhatsApp Image Keys")
  else if mediaType = "video" then some ("WhatsApp Video Keys")
  else if mediaType = "audio" then some ("WhatsApp Audio Keys")
  else if mediaType = "document" then some ("WhatsApp Document Keys")
  else none

/-- MediaDecryption.expandMediaKey: decode the base64 media key, check it is
exactly 32 bytes, select the domain string for the media type, run HKDF to
112 bytes and return the [0,32), [32,64), [64,80) slices. -/
def expandMediaKey (hmac : List Nat → List Nat → List Nat)
    (mediaKeyBase64 mediaType : String) : Except ExpandErr ExpandedKeySet :=
  let mediaKey := decodeBase64 mediaKeyBase64
  if mediaKey.length ≠ 32 then
    .error (.badKeyLength mediaKey.length)
  else
    match applicationInfo mediaType with
    | none => .error (.badMediaType mediaType)
    | some info =>
        let salt := List.replicate 32 0
        let expandedKey := hkdfSync hmac mediaKey salt (strBytes info) 112
        .ok { cipherKey := jsSlice expandedKey 0 32
              macKey := jsSlice expandedKey 32 64
              iv := jsSlice expandedKey 64 80 }

/-- Events performed by the pipeline, for stating ordering and
exactly-once properties. -/
inductive Ev
  | hmacEv
  | aesEv
  | hkdfEv
  | expandEv
  | fetchEv
  | decryptEv
  | cleanupEv
deriving DecidableEq, Repr

/-- expandMediaKey instrumented with the cryptographic work it performs: the
HKDF expansion runs only after both validation checks pass. -/
def expandMediaKeyT (hmac : List Nat → List Nat → List Nat)
    (mediaKeyBase64 mediaType : String) :
    Except ExpandErr ExpandedKeySet × List Ev :=
  let mediaKey := decodeBase64 mediaKeyBase64
  if mediaKey.length ≠ 32 then
    (.error (.badKeyLength mediaKey.length), [])
  else
    match applicationInfo mediaType with
    | none => (.error (.badMediaType mediaType), [])
    | some info =>
        let salt := List.replicate 32 0
        let expandedKey := hkdfSync hmac mediaKey salt (strBytes info) 112
        (.ok { cipherKey := jsSlice expandedKey 0 32
               macKey := jsSlice expandedKey 32 64
               iv := jsSlice expandedKey 64 80 }, [.hkdfEv])

/-! ## PKCS7 padding, CBC mode and MediaDecryption.decryptData -/

/-- PKCS7 padding to the 16-byte AES block size (what the encrypting side
appends and crypto.createDecipheriv removes). -/
def pkcs7Pad (l : List Nat) : List Nat :=
  let p := 16 - l.length % 16
  l ++ List.replicate p p

/-- PKCS7 padding removal: the last byte p must lie in [1, 16], not exceed
the data length, and the last p bytes must all equal p (an empty input has
no last byte and is rejected through the p = 0 case). -/
def pkcs7Unpad (l : List Nat) : Option (List Nat) :=
  let p := l.getLast?.getD 0
  if p = 0 ∨ 16 < p ∨ l.length < p then none
  else if l.drop (l.length - p) = List.replicate p p then
    some (l.take (l.length - p))
  else none

/-- Split a byte list into 16-byte blocks (the last block may be shorter when
the length is not a multiple of 16). -/
def toBlocks : List Nat → List (List Nat)
  | [] => []
  | a :: rest => ((a :: rest).take 16) :: toBlocks ((a :: rest).drop 16)
  termination_by l => l.length
  decreasing_by simp; omega

/-- CBC encryption of a list of plaintext blocks under a block cipher:
each ciphertext block is the encryption of the plaintext block xored with
the previous ciphertext block (initially the IV). -/
def cbcEncryptBlocks (aesEnc : List Nat → List Nat → List Nat)
    (key : List Nat) : List Nat → List (List Nat) → List (List Nat)
  | _, [] => []
  | prev, b :: bs =>
      let c := aesEnc key (xorBytes prev b)
      c :: cbcEncryptBlocks aesEnc key c bs

/-- CBC decryption of a list of ciphertext blocks under a block cipher. -/
def cbcDecryptBlocks (aesDec : List Nat → List Nat → List Nat)
    (key : List Nat) : List Nat → List (List Nat) → List (List Nat)
  | _, [] => []
  | prev, c :: cs =>
      xorBytes (aesDec key c) prev :: cbcDecryptBlocks aesDec key c cs

/-- AES-256-CBC encryption with PKCS7 padding (the operation inverted by
crypto.createDecipheriv on the decrypting side). -/
def cbcEncrypt (aesEnc : List Nat → List Nat → List Nat)
    (key iv pt : List Nat) : List Nat :=
  (cbcEncryptBlocks aesEnc key iv (toBlocks (pkcs7Pad pt))).flatten

/-- Failure modes of decryptData, mirroring the DecryptionError messages in
the source: undersized payload, MAC mismatch, bad decrypt (padding),
wrong final block length (input not block-aligned), and the catch-all. -/
inductive DecryptErr
  | tooSmall
  | macMismatch
  | badDecrypt
  | wrongFinalBlockLength
  | unexpected
deriving DecidableEq, Repr

/-- The decryption performed by crypto.createDecipheriv over update/final:
the input must be a whole number of blocks, and the PKCS7 padding of the
chained block decryption must be well formed. -/
def cbcDecrypt (aesDec : List Nat → List Nat → List Nat)
    (key iv ct : List Nat) : Except DecryptErr (List Nat) :=
  if ct.length % 16 ≠ 0 then .error .wrongFinalBlockLength
  else
    match pkcs7Unpad ((cbcDecryptBlocks aesDec key iv (toBlocks ct)).flatten) with
    | some pt => .ok pt
    | none => .error .badDecrypt

/-- MediaDecryption.decryptData: reject payloads under 10 bytes, split off the
10-byte truncated MAC, recompute HMAC-SHA-256 over the remainder, compare,
and only then run AES-256-CBC decryption; library faults are caught and
returned as DecryptionError values. -/
def decryptData (hmac aesDec : List Nat → List Nat → List Nat)
    (encryptedData : List Nat) (keys : ExpandedKeySet) :
    Except DecryptErr (List Nat) :=
  if encryptedData.length < 10 then .error .tooSmall
  else
    let fileMac := jsSlice encryptedData 0 10
    let encryptedContent := encryptedData.drop 10
    let expectedMac := jsSlice (hmac keys.macKey encryptedContent) 0 10
    if fileMac ≠ expectedMac then .error .macMismatch
    else cbcDecrypt aesDec keys.cipherKey keys.iv encryptedContent

/-- decryptData instrumented with its cryptographic work: the MAC is always
computed first, and the AES decryption event occurs only after the
constant-time tag comparison succeeds. -/
def decryptDataT (hmac aesDec : List Nat → List Nat → List Nat)
    (encryptedData : List Nat) (keys : ExpandedKeySet) :
    Except DecryptErr (List Nat) × List Ev :=
  if encryptedData.length < 10 then (.error .tooSmall, [])
  else
    let fileMac := jsSlice encryptedData 0 10
    let encryptedContent := encryptedData.drop 10
    let expectedMac := jsSlice (hmac keys.macKey encryptedContent) 0 10
    if fileMac ≠ expectedMac then (.error .macMismatch, [.hmacEv])
    else (cbcDecrypt aesDec keys.cipherKey keys.iv encryptedContent,
          [.hmacEv, .aesEv])

/-- MediaDecryption.secureKeyCleanup: overwrite each key buffer in place with
zero bytes (Buffer.fill(0) keeps the length). -/
def secureKeyCleanup (k : ExpandedKeySet) : ExpandedKeySet :=
  { cipherKey := List.replicate k.cipherKey.length 0
    macKey := List.replicate k.macKey.length 0
    iv := List.replicate k.iv.length 0 }

/-! ## Category lookup tables -/

/-- MediaDecryption.getContentType: contentTypes[mediaType] with the
JavaScript || fallback to application/octet-stream. -/
def getContentType (mediaType : String) : String :=
  if mediaType = "image" then "image/jpeg"
  else if mediaType = "video" then "video/mp4"
  else if mediaType = "audio" then "audio/mpeg"
  else if mediaType = "document" then "application/pdf"
  else "application/octet-stream"

/-- MediaDecryption.getFileExtension: extensions[mediaType] with the
JavaScript || fallback to bin. -/
def getFileExtension (mediaType : String) : String :=
  if mediaType = "image" then "jpg"
  else if mediaType = "video" then "mp4"
  else if mediaType = "audio" then "mp3"
  else if mediaType = "document" then "pdf"
  else "bin"

/-! ## MediaDownload.downloadMedia

The network is modelled by an oracle giving the outcome of each numbered
attempt: either a fully received body or the cause of the failure (non-ok
HTTP status or transport error, both of which the loop catches and retries).
The run records the final result, the number of attempts made, and the list
of backoff delays slept between attempts. -/

/-- Error raised by downloadMedia after exhausting all attempts, wrapping the
cause of the last attempt. -/
inductive DownloadErr
  | network (lastCause : Option String)
deriving DecidableEq, Repr

/-- One execution of the downloadMedia retry loop: its result, how many
attempts were made, and the delays slept between attempts. -/
structure DownloadRun where
  result : Except DownloadErr (List Nat)
  attempts : Nat
  delays : List Nat
deriving Repr

/-- The body of the retry loop, by recursion over the remaining attempt
budget: attempt numbers run from 1 upward; after a failed attempt the loop
sleeps retryDelay * attempt if attempts remain; when the budget is exhausted
a NetworkError wrapping the last cause is raised. -/
def downloadGo (oracle : Nat → Except String (List Nat)) (retryDelay : Nat) :
    Nat → Nat → Option String → DownloadRun
  | _, 0, lastErr => { result := .error (.network lastErr), attempts := 0, delays := [] }
  | attempt, remaining + 1, _ =>
      match oracle attempt with
      | .ok buffer => { result := .ok buffer, attempts := 1, delays := [] }
      | .error e =>
          let rest := downloadGo oracle retryDelay (attempt + 1) remaining (some e)
          { result := rest.result
            attempts := rest.attempts + 1
            delays := if remaining = 0 then rest.delays
                      else retryDelay * attempt :: rest.delays }

/-- MediaDownload.downloadMedia with its retries and retryDelay options:
sequential attempts 1..retries with linear backoff. -/
def downloadMedia (oracle : Nat → Except String (List Nat))
    (retries retryDelay : Nat) : DownloadRun :=
  downloadGo oracle retryDelay 1 retries none

/-! ## The POST /decrypt route handler (routes/media.js)

The handler expands the key, fetches the encrypted object, decrypts it and
maps each error class to a transport response.  The fetch outcome is an
oracle input.  The instrumenting event list records the operations the
handler performs; the source never invokes secureKeyCleanup. -/

/-- Outcome of the node-fetch call made by the route handler. -/
inductive FetchOutcome
  | ok (body : List Nat)
  | httpError (status : Nat)
  | transportError (code : String)
deriving DecidableEq, Repr

/-- Transport-level response of the route handler. -/
inductive HandlerResp
  | success (body : List Nat)
  | badRequest
  | unprocessable
  | badGateway
  | internalError
deriving DecidableEq, Repr

/-- The POST /decrypt handler of routes/media.js: expandMediaKey, then the
fetch (non-ok status raised as NetworkError), then decryptData; the catch
block maps ValidationError to 400, DecryptionError to 422, NetworkError and
connection failures to 502, anything else to 500. -/
def decryptHandler (hmac aesDec : List Nat → List Nat → List Nat)
    (mediaKey mediaType : String) (fetchR : FetchOutcome) :
    HandlerResp × List Ev :=
  match expandMediaKey hmac mediaKey mediaType with
  | .error e =>
      (if e.isValidation then .badRequest else .unprocessable, [.expandEv])
  | .ok keys =>
      match fetchR with
      | .httpError _ => (.badGateway, [.expandEv, .fetchEv])
      | .transportError code =>
          (if code = "ENOTFOUND" ∨ code = "ECONNREFUSED" then .badGateway
           else .internalError, [.expandEv, .fetchEv])
      | .ok body =>
          match decryptData hmac aesDec body keys with
          | .error _ => (.unprocessable, [.expandEv, .fetchEv, .decryptEv])
          | .ok pt => (.success pt, [.expandEv, .fetchEv, .decryptEv])

/-! ## Concrete instances used by the closed witnesses -/

/-- A concrete stand-in for HMAC-SHA-256 with the right output length. -/
def hmac0 : List Nat → List Nat → List Nat :=
  fun _ _ => List.replicate 32 0

/-- The identity block cipher, used to instantiate the abstract AES
parameters in closed witnesses. -/
def aesId : List Nat → List Nat → List Nat :=
  fun _ b => b

/-- A concrete valid key set. -/
def keys0 : ExpandedKeySet :=
  { cipherKey := List.replicate 32 0
    macKey := List.replicate 32 0
    iv := List.replicate 16 0 }

/-- Canonical base64 of 32 zero bytes, without the final padding character. -/
def key43 : String := "AAAAAAAAAAAAAAAAAAAAAAAAAAAAAAAAAAAAAAAAAAA"

/-- The same 43 alphabet characters with a stray non-alphabet character in
front: a malformed base64 string whose lenient decoding still has 32 bytes. -/
def key44Bang : String := "!AAAAAAAAAAAAAAAAAAAAAAAAAAAAAAAAAAAAAAAAAAA"

example : (decodeBase64 key43).length = 32 := by decide
example : decodeBase64 key44Bang = List.replicate 32 0 := by decide

/-! ## Supporting lemmas -/

theorem length_xorBytes (a b : List Nat) :
    (xorBytes a b).length = min a.length b.length := by
  simp [xorBytes]

theorem xorBytes_cancel : ∀ (a b : List Nat), a.length = b.length →
    xorBytes (xorBytes a b) a = b
  | [], [], _ => rfl
  | x :: xs, y :: ys, h => by
      simp only [xorBytes, List.zipWith_cons_cons, List.cons.injEq]
      refine ⟨?_, xorBytes_cancel xs ys (by simpa using h)⟩
      show x ^^^ y ^^^ x = y
      rw [Nat.xor_comm x y]
      exact Nat.xor_cancel_right x y

theorem toBlocks_cons (l : List Nat) (h : l ≠ []) :
    toBlocks l = l.take 16 :: toBlocks (l.drop 16) := by
  cases l with
  | nil => exact absurd rfl h
  | cons a rest => rw [toBlocks]

theorem flatten_toBlocks (l : List Nat) : (toBlocks l).flatten = l := by
  induction l using toBlocks.induct with
  | case1 => simp [toBlocks]
  | case2 a rest ih =>
      rw [toBlocks]
      simp only [List.flatten_cons, ih, List.take_append_drop]

theorem toBlocks_block_length (l : List Nat) :
    l.length % 16 = 0 → ∀ b ∈ toBlocks l, b.length = 16 := by
  induction l using toBlocks.induct with
  | case1 => intro _; simp [toBlocks]
  | case2 a rest ih =>
      intro hl b hb
      rw [toBlocks] at hb
      have hpos : 0 < (a :: rest).length := by simp
      have hlen : 16 ≤ (a :: rest).length := by omega
      rcases List.mem_cons.mp hb with hb | hb
      · subst hb
        rw [List.length_take]
        omega
      · exact ih (by rw [List.length_drop]; omega) b hb

theorem toBlocks_append16 (b l : List Nat) (hb : b.length = 16) :
    toBlocks (b ++ l) = b :: toBlocks l := by
  have hne : b ++ l ≠ [] := by
    intro hcon
    have := congrArg List.length hcon
    simp [hb] at this
  rw [toBlocks_cons _ hne]
  have ht : (b ++ l).take 16 = b := by
    rw [← hb]; exact List.take_left b l
  have hd : (b ++ l).drop 16 = l := by
    rw [← hb]; exact List.drop_left b l
  rw [ht, hd]

theorem toBlocks_flatten16 (bs : List (List Nat)) :
    (∀ b ∈ bs, b.length = 16) → toBlocks bs.flatten = bs := by
  induction bs with
  | nil => intro _; simp [toBlocks]
  | cons b bs ih =>
      intro h
      rw [List.flatten_cons, toBlocks_append16 b bs.flatten (h b (by simp)),
        ih (fun x hx => h x (by simp [hx]))]

theorem flatten_length16 : ∀ (bs : List (List Nat)),
    (∀ b ∈ bs, b.length = 16) → bs.flatten.length = 16 * bs.length
  | [], _ => rfl
  | b :: bs, h => by
      rw [List.flatten_cons, List.length_append, h b (by simp),
        flatten_length16 bs (fun x hx => h x (by simp [hx]))]
      simp [Nat.mul_succ, Nat.add_comm]

theorem pkcs7Unpad_pad (l : List Nat) : pkcs7Unpad (pkcs7Pad l) = some l := by
  have hp1 : 1 ≤ 16 - l.length % 16 := by omega
  have hp16 : 16 - l.length % 16 ≤ 16 := by omega
  set p := 16 - l.length % 16 with hp
  have hrep : List.replicate p p = List.replicate (p - 1) p ++ [p] := by
    have h0 : p - 1 + 1 = p := by omega
    calc List.replicate p p = List.replicate (p - 1 + 1) p := by rw [h0]
      _ = List.replicate (p - 1) p ++ [p] := List.replicate_succ' (p - 1) p
  have hpadEq : pkcs7Pad l = l ++ List.replicate p p := by
    rw [pkcs7Pad]
  have hlast : (pkcs7Pad l).getLast?.getD 0 = p := by
    rw [hpadEq, hrep, ← List.append_assoc, List.getLast?_concat]
    rfl
  have hlen : (pkcs7Pad l).length = l.length + p := by
    rw [hpadEq]; simp
  have hsub : (pkcs7Pad l).length - p = l.length := by omega
  have hdrop : (pkcs7Pad l).drop ((pkcs7Pad l).length - p) = List.replicate p p := by
    rw [hsub, hpadEq]
    exact List.drop_left l (List.replicate p p)
  have htake : (pkcs7Pad l).take ((pkcs7Pad l).length - p) = l := by
    rw [hsub, hpadEq]
    exact List.take_left l (List.replicate p p)
  have hc1 : ¬(p = 0 ∨ 16 < p ∨ (pkcs7Pad l).length < p) := by
    rw [hlen]; omega
  rw [pkcs7Unpad, hlast, if_neg hc1, if_pos hdrop, htake]

theorem pkcs7Pad_length_mod (l : List Nat) : (pkcs7Pad l).length % 16 = 0 := by
  simp only [pkcs7Pad, List.length_append, List.length_replicate]
  omega

theorem cbcEncryptBlocks_block_length
    (aesEnc : List Nat → List Nat → List Nat) (key : List Nat)
    (henc : ∀ k b, b.length = 16 → (aesEnc k b).length = 16) :
    ∀ (prev : List Nat) (bs : List (List Nat)), prev.length = 16 →
      (∀ b ∈ bs, b.length = 16) →
      ∀ c ∈ cbcEncryptBlocks aesEnc key prev bs, c.length = 16
  | _, [], _, _ => by simp [cbcEncryptBlocks]
  | prev, b :: bs, hprev, hbs => by
      intro c hc
      rw [cbcEncryptBlocks] at hc
      have hxl : (xorBytes prev b).length = 16 := by
        rw [length_xorBytes, hprev, hbs b (by simp)]
        rfl
      have hcl : (aesEnc key (xorBytes prev b)).length = 16 := henc key _ hxl
      rcases List.mem_cons.mp hc with hc | hc
      · subst hc; exact hcl
      · exact cbcEncryptBlocks_block_length aesEnc key henc _ bs hcl
          (fun x hx => hbs x (by simp [hx])) c hc

theorem cbcDecryptBlocks_encryptBlocks
    (aesEnc aesDec : List Nat → List Nat → List Nat) (key : List Nat)
    (henc : ∀ k b, b.length = 16 → (aesEnc k b).length = 16)
    (hinv : ∀ k b, b.length = 16 → aesDec k (aesEnc k b) = b) :
    ∀ (prev : List Nat) (bs : List (List Nat)), prev.length = 16 →
      (∀ b ∈ bs, b.length = 16) →
      cbcDecryptBlocks aesDec key prev (cbcEncryptBlocks aesEnc key prev bs) = bs
  | _, [], _, _ => by simp [cbcEncryptBlocks, cbcDecryptBlocks]
  | prev, b :: bs, hprev, hbs => by
      rw [cbcEncryptBlocks, cbcDecryptBlocks]
      have hbl : b.length = 16 := hbs b (by simp)
      have hxl : (xorBytes prev b).length = 16 := by
        rw [length_xorBytes, hprev, hbl]
        rfl
      have hd : aesDec key (aesEnc key (xorBytes prev b)) = xorBytes prev b :=
        hinv key _ hxl
      rw [hd]
      have hx : xorBytes (xorBytes prev b) prev = b :=
        xorBytes_cancel prev b (by rw [hprev, hbl])
      rw [hx]
      rw [cbcDecryptBlocks_encryptBlocks aesEnc aesDec key henc hinv _ bs
        (henc key _ hxl) (fun x hx => hbs x (by simp [hx]))]

theorem hkdfT_length (hmac : List Nat → List Nat → List Nat)
    (hlen : ∀ k m, (hmac k m).length = 32) (prk info : List Nat) :
    ∀ i, 1 ≤ i → (hkdfT hmac prk info i).length = 32 := by
  intro i hi
  cases i with
  | zero => omega
  | succ j => rw [hkdfT]; exact hlen prk _

theorem hkdfOkm_length (hmac : List Nat → List Nat → List Nat)
    (hlen : ∀ k m, (hmac k m).length = 32) (prk info : List Nat) :
    ∀ n, (hkdfOkm hmac prk info n).length = 32 * n
  | 0 => rfl
  | n + 1 => by
      rw [hkdfOkm, List.length_append,
        hkdfOkm_length hmac hlen prk info n,
        hkdfT_length hmac hlen prk info (n + 1) (by omega)]
      omega

theorem hkdfSync_length (hmac : List Nat → List Nat → List Nat)
    (hlen : ∀ k m, (hmac k m).length = 32) (ikm salt info : List Nat) :
    (hkdfSync hmac ikm salt info 112).length = 112 := by
  rw [hkdfSync, List.length_take, hkdfOkm_length hmac hlen _ info 4]
  rfl

theorem cbcDecrypt_cbcEncrypt
    (aesEnc aesDec : List Nat → List Nat → List Nat)
    (henc : ∀ k b, b.length = 16 → (aesEnc k b).length = 16)
    (hinv : ∀ k b, b.length = 16 → aesDec k (aesEnc k b) = b)
    (key iv pt : List Nat) (hiv : iv.length = 16) :
    cbcDecrypt aesDec key iv (cbcEncrypt aesEnc key iv pt) = .ok pt := by
  have hpadmod : (pkcs7Pad pt).length % 16 = 0 := pkcs7Pad_length_mod pt
  have hblocks : ∀ b ∈ toBlocks (pkcs7Pad pt), b.length = 16 :=
    toBlocks_block_length _ hpadmod
  have hcblocks :
      ∀ c ∈ cbcEncryptBlocks aesEnc key iv (toBlocks (pkcs7Pad pt)), c.length = 16 :=
    cbcEncryptBlocks_block_length aesEnc key henc iv _ hiv hblocks
  have hctlen : (cbcEncrypt aesEnc key iv pt).length % 16 = 0 := by
    rw [cbcEncrypt, flatten_length16 _ hcblocks]
    omega
  have h1 : toBlocks (cbcEncrypt aesEnc key iv pt) =
      cbcEncryptBlocks aesEnc key iv (toBlocks (pkcs7Pad pt)) := by
    rw [cbcEncrypt]
    exact toBlocks_flatten16 _ hcblocks
  rw [cbcDecrypt, if_neg (not_not_intro hctlen), h1,
    cbcDecryptBlocks_encryptBlocks aesEnc aesDec key henc hinv iv _ hiv hblocks,
    flatten_toBlocks, pkcs7Unpad_pad]

theorem downloadGo_zero (oracle : Nat → Except String (List Nat))
    (retryDelay a : Nat) (le : Option String) :
    downloadGo oracle retryDelay a 0 le =
      { result := .error (.network le), attempts := 0, delays := [] } := rfl

theorem downloadGo_succ (oracle : Nat → Except String (List Nat))
    (retryDelay a r : Nat) (le : Option String) :
    downloadGo oracle retryDelay a (r + 1) le =
      match oracle a with
      | .ok buffer => { result := .ok buffer, attempts := 1, delays := [] }
      | .error e =>
          let rest := downloadGo oracle retryDelay (a + 1) r (some e)
          { result := rest.result
            attempts := rest.attempts + 1
            delays := if r = 0 then rest.delays
                      else retryDelay * a :: rest.delays } := rfl

theorem downloadGo_all_fail (oracle : Nat → Except String (List Nat))
    (retryDelay : Nat) :
    ∀ (r a : Nat) (le : Option String) (c : String), 1 ≤ r →
      (∀ i, a ≤ i → i < a + r → ∃ m, oracle i = .error m) →
      oracle (a + r - 1) = .error c →
      downloadGo oracle retryDelay a r le =
        { result := .error (.network (some c))
          attempts := r
          delays := (List.range' a (r - 1)).map (fun i => retryDelay * i) } := by
  intro r
  induction r with
  | zero => omega
  | succ r' ih =>
      intro a le c _ hfail hlast
      cases r' with
      | zero =>
          have hc : oracle a = .error c := by simpa using hlast
          rw [downloadGo_succ, hc]
          simp [downloadGo_zero]
      | succ r'' =>
          obtain ⟨m, hm⟩ := hfail a (by omega) (by omega)
          have hrest := ih (a + 1) (some m) c (by omega)
            (fun i h1 h2 => hfail i (by omega) (by omega))
            (by rw [show a + 1 + (r'' + 1) - 1 = a + (r'' + 1 + 1) - 1 by omega]
                exact hlast)
          rw [downloadGo_succ, hm]
          dsimp only
          rw [hrest]
          dsimp only
          rw [if_neg (by omega : ¬ r'' + 1 = 0)]
          simp [List.range'_succ]

theorem downloadGo_success (oracle : Nat → Except String (List Nat))
    (retryDelay : Nat) :
    ∀ (r a k : Nat) (le : Option String) (buf : List Nat), a ≤ k → k < a + r →
      (∀ i, a ≤ i → i < k → ∃ m, oracle i = .error m) →
      oracle k = .ok buf →
      downloadGo oracle retryDelay a r le =
        { result := .ok buf
          attempts := k - a + 1
          delays := (List.range' a (k - a)).map (fun i => retryDelay * i) } := by
  intro r
  induction r with
  | zero => omega
  | succ r' ih =>
      intro a k le buf hak hkr hfail hok
      rcases Nat.eq_or_lt_of_le hak with hek | hlt
      · subst hek
        rw [downloadGo_succ, hok]
        simp
      · obtain ⟨m, hm⟩ := hfail a (by omega) (by omega)
        have hrest := ih (a + 1) k (some m) buf (by omega) (by omega)
          (fun i h1 h2 => hfail i (by omega) h2) hok
        rw [downloadGo_succ, hm]
        dsimp only
        rw [hrest]
        dsimp only
        have hr0 : ¬ r' = 0 := by omega
        rw [if_neg hr0]
        simp [List.range'_succ, show k - a = k - (a + 1) + 1 by omega]

theorem sum_map_mul (c : Nat) : ∀ (l : List Nat),
    (l.map (fun i => c * i)).sum = c * l.sum
  | [] => by simp
  | x :: xs => by
      rw [List.map_cons, List.sum_cons, List.sum_cons, sum_map_mul c xs, Nat.mul_add]

theorem range'_one_sum_eq_range_sum (n : Nat) (h : 1 ≤ n) :
    (List.range' 1 (n - 1)).sum = (List.range n).sum := by
  obtain ⟨m, rfl⟩ : ∃ m, n = m + 1 := ⟨n - 1, by omega⟩
  rw [List.range_eq_range']
  rw [show m + 1 - 1 = m by omega]
  rw [List.range'_succ]
  simp

/-! ## Claim theorems -/

/-- C1: round-trip correctness of decryption.  For every plaintext P and
every valid ExpandedKeySet, encrypting P with AES-256-CBC plus PKCS7 padding
under (cipherKey, iv), prefixing the first 10 bytes of
HMAC-SHA-256(macKey, ciphertext), and passing the resulting payload to
decryptData with the same key set returns exactly P.  The HMAC and the AES
block cipher are abstract library primitives, assumed only to have 32-byte
MAC output and to form an inverse pair of 16-byte block maps. -/
theorem decryptData_roundtrip
    (hmac aesEnc aesDec : List Nat → List Nat → List Nat)
    (hlen : ∀ k m, (hmac k m).length = 32)
    (henc : ∀ k b, b.length = 16 → (aesEnc k b).length = 16)
    (hinv : ∀ k b, b.length = 16 → aesDec k (aesEnc k b) = b)
    (keys : ExpandedKeySet) (hiv : keys.iv.length = 16) (P : List Nat) :
    decryptData hmac aesDec
      (jsSlice (hmac keys.macKey (cbcEncrypt aesEnc keys.cipherKey keys.iv P)) 0 10
        ++ cbcEncrypt aesEnc keys.cipherKey keys.iv P) keys
      = .ok P := by
  set ct := cbcEncrypt aesEnc keys.cipherKey keys.iv P with hct
  set tag := jsSlice (hmac keys.macKey ct) 0 10 with htag
  have htagLen : tag.length = 10 := by
    rw [htag, jsSlice]
    simp [List.length_take, List.length_drop, hlen]
  have hplen : (tag ++ ct).length = 10 + ct.length := by
    simp [htagLen]
  have h10 : jsSlice (tag ++ ct) 0 10 = tag := by
    rw [jsSlice]
    simp only [List.drop_zero, Nat.sub_zero]
    rw [← htagLen]
    exact List.take_left tag ct
  have hdrop10 : (tag ++ ct).drop 10 = ct := by
    rw [← htagLen]
    exact List.drop_left tag ct
  rw [decryptData]
  rw [if_neg (by omega : ¬ (tag ++ ct).length < 10)]
  rw [h10, hdrop10]
  dsimp only
  rw [← htag]
  rw [if_neg (not_not_intro rfl)]
  rw [hct]
  exact cbcDecrypt_cbcEncrypt aesEnc aesDec henc hinv keys.cipherKey keys.iv P hiv

/-- Closed witness for C1: the round trip at a concrete plaintext, a concrete
key set, the identity block cipher and a constant-output MAC. -/
theorem decryptData_roundtrip_witness :
    decryptData hmac0 aesId
      (jsSlice (hmac0 keys0.macKey (cbcEncrypt aesId keys0.cipherKey keys0.iv [7, 7])) 0 10
        ++ cbcEncrypt aesId keys0.cipherKey keys0.iv [7, 7]) keys0
      = .ok [7, 7] :=
  decryptData_roundtrip hmac0 aesId aesId
    (fun _ _ => by simp [hmac0])
    (fun _ _ h => h)
    (fun _ _ _ => rfl)
    keys0 (by simp [keys0]) [7, 7]

/-- C3: total, controlled error behaviour of decryptData.  For every key set
and payload, a payload under 10 bytes gives the undersized-payload
DecryptionError; any difference between the 10-byte tag and the first
10 bytes of HMAC-SHA-256(macKey, body) — in particular a single flipped
bit — gives the MAC-mismatch DecryptionError and the instrumented run
performs no AES decryption; and a body whose length is not a multiple of
the 16-byte block size gives some DecryptionError.  The function is total,
so no uncontrolled fault is possible. -/
theorem decryptData_controlled_errors
    (hmac aesDec : List Nat → List Nat → List Nat)
    (keys : ExpandedKeySet) (payload : List Nat) :
    (payload.length < 10 →
      decryptData hmac aesDec payload keys = .error .tooSmall) ∧
    (10 ≤ payload.length →
      jsSlice payload 0 10 ≠ jsSlice (hmac keys.macKey (payload.drop 10)) 0 10 →
      decryptData hmac aesDec payload keys = .error .macMismatch ∧
      (decryptDataT hmac aesDec payload keys).2.count .aesEv = 0) ∧
    (10 ≤ payload.length → (payload.length - 10) % 16 ≠ 0 →
      ∃ e, decryptData hmac aesDec payload keys = .error e) := by
  refine ⟨?_, ?_, ?_⟩
  · intro h
    rw [decryptData, if_pos h]
  · intro h hne
    constructor
    · rw [decryptData, if_neg (by omega : ¬ payload.length < 10)]
      dsimp only
      rw [if_pos hne]
    · rw [decryptDataT, if_neg (by omega : ¬ payload.length < 10)]
      dsimp only
      rw [if_pos hne]
      rfl
  · intro h hmod
    rw [decryptData, if_neg (by omega : ¬ payload.length < 10)]
    dsimp only
    by_cases hmk : jsSlice payload 0 10 ≠ jsSlice (hmac keys.macKey (payload.drop 10)) 0 10
    · exact ⟨.macMismatch, by rw [if_pos hmk]⟩
    · refine ⟨.wrongFinalBlockLength, ?_⟩
      rw [if_neg hmk, cbcDecrypt,
        if_pos (by rw [List.length_drop]; exact hmod)]

/-- Closed witness for C3: each error path exercised at a concrete payload
with a concrete key set, constant-output MAC and identity block cipher. -/
theorem decryptData_controlled_errors_witness :
    decryptData hmac0 aesId [1, 2, 3] keys0 = .error .tooSmall ∧
    (decryptData hmac0 aesId (List.replicate 10 1) keys0 = .error .macMismatch ∧
      (decryptDataT hmac0 aesId (List.replicate 10 1) keys0).2.count .aesEv = 0) ∧
    (∃ e, decryptData hmac0 aesId (List.replicate 10 0 ++ [5]) keys0 = .error e) :=
  ⟨(decryptData_controlled_errors hmac0 aesId keys0 [1, 2, 3]).1 (by decide),
   (decryptData_controlled_errors hmac0 aesId keys0 (List.replicate 10 1)).2.1
     (by decide) (by decide),
   (decryptData_controlled_errors hmac0 aesId keys0 (List.replicate 10 0 ++ [5])).2.2
     (by decide) (by decide)⟩

/-- C4: key expansion partition.  For every 32-byte decoded secret and every
valid category, expandMediaKey succeeds with precisely the 112-byte HKDF
expansion of the secret under a 32-zero-byte salt and the domain string of
the category, partitioned as cipherKey = [0,32), macKey = [32,64),
iv = [64,80): disjoint slices of sizes 32, 32 and 16. -/
theorem expandMediaKey_partition
    (hmac : List Nat → List Nat → List Nat)
    (hlen : ∀ k m, (hmac k m).length = 32)
    (s cat info : String)
    (h32 : (decodeBase64 s).length = 32)
    (hinfo : applicationInfo cat = some info) :
    ∃ okm, okm = hkdfSync hmac (decodeBase64 s) (List.replicate 32 0)
        (strBytes info) 112 ∧
      okm.length = 112 ∧
      expandMediaKey hmac s cat =
        .ok { cipherKey := jsSlice okm 0 32
              macKey := jsSlice okm 32 64
              iv := jsSlice okm 64 80 } ∧
      (jsSlice okm 0 32).length = 32 ∧
      (jsSlice okm 32 64).length = 32 ∧
      (jsSlice okm 64 80).length = 16 := by
  have hOkmLen : (hkdfSync hmac (decodeBase64 s) (List.replicate 32 0)
      (strBytes info) 112).length = 112 :=
    hkdfSync_length hmac hlen _ _ _
  refine ⟨_, rfl, hOkmLen, ?_, ?_, ?_, ?_⟩
  · rw [expandMediaKey]
    dsimp only
    rw [if_neg (not_not_intro h32), hinfo]
  · rw [jsSlice, List.length_take, List.length_drop, hOkmLen]
    omega
  · rw [jsSlice, List.length_take, List.length_drop, hOkmLen]
    omega
  · rw [jsSlice, List.length_take, List.length_drop, hOkmLen]
    omega

/-- Closed witness for C4: the partition at the canonical base64 encoding of
32 zero bytes and the image category, with a concrete MAC model. -/
theorem expandMediaKey_partition_witness :
    ∃ okm, okm = hkdfSync hmac0 (decodeBase64 key43) (List.replicate 32 0)
        (strBytes ("WhatsApp Image Keys")) 112 ∧
      okm.length = 112 ∧
      expandMediaKey hmac0 key43 ("image") =
        .ok { cipherKey := jsSlice okm 0 32
              macKey := jsSlice okm 32 64
              iv := jsSlice okm 64 80 } ∧
      (jsSlice okm 0 32).length = 32 ∧
      (jsSlice okm 32 64).length = 32 ∧
      (jsSlice okm 64 80).length = 16 :=
  expandMediaKey_partition hmac0 (fun _ _ => by simp [hmac0]) key43
    ("image") ("WhatsApp Image Keys") (by decide) (by decide)

/-- C5: validation failures of expandMediaKey.  Whenever the decoded secret
is not exactly 32 bytes the result is the bad-key-length ValidationError;
whenever the category is unrecognized the result is a ValidationError; in
both cases the instrumented run performs no HKDF expansion work (and the
function does no network work at all); and every error the function can
return is a ValidationError, never any other kind or a silent default. -/
theorem expandMediaKey_validation
    (hmac : List Nat → List Nat → List Nat) (s cat : String) :
    ((decodeBase64 s).length ≠ 32 →
      expandMediaKey hmac s cat = .error (.badKeyLength (decodeBase64 s).length) ∧
      (expandMediaKeyT hmac s cat).2 = []) ∧
    (applicationInfo cat = none →
      (∃ e, expandMediaKey hmac s cat = .error e ∧ e.isValidation = true) ∧
      (expandMediaKeyT hmac s cat).2 = []) ∧
    (∀ e, expandMediaKey hmac s cat = .error e → e.isValidation = true) := by
  refine ⟨?_, ?_, ?_⟩
  · intro hne
    constructor
    · rw [expandMediaKey]
      dsimp only
      rw [if_pos hne]
    · rw [expandMediaKeyT]
      dsimp only
      rw [if_pos hne]
  · intro hnone
    by_cases h32 : (decodeBase64 s).length = 32
    · refine ⟨⟨.badMediaType cat, ?_, rfl⟩, ?_⟩
      · rw [expandMediaKey]
        dsimp only
        rw [if_neg (not_not_intro h32), hnone]
      · rw [expandMediaKeyT]
        dsimp only
        rw [if_neg (not_not_intro h32), hnone]
    · refine ⟨⟨.badKeyLength (decodeBase64 s).length, ?_, rfl⟩, ?_⟩
      · rw [expandMediaKey]
        dsimp only
        rw [if_pos h32]
      · rw [expandMediaKeyT]
        dsimp only
        rw [if_pos h32]
  · intro e he
    rw [expandMediaKey] at he
    dsimp only at he
    by_cases h32 : (decodeBase64 s).length = 32
    · rw [if_neg (not_not_intro h32)] at he
      cases hinfo : applicationInfo cat with
      | none =>
          rw [hinfo] at he
          dsimp only at he
          cases he
          rfl
      | some info =>
          rw [hinfo] at he
          dsimp only at he
          cases he
    · rw [if_pos h32] at he
      cases he
      rfl

/-- Closed witness for C5: both validation failures at concrete inputs, with
empty instrumentation traces. -/
theorem expandMediaKey_validation_witness :
    (expandMediaKey hmac0 "c2hvcnQ" ("image") =
        .error (.badKeyLength (decodeBase64 "c2hvcnQ").length) ∧
      (expandMediaKeyT hmac0 "c2hvcnQ" ("image")).2 = []) ∧
    ((∃ e, expandMediaKey hmac0 key43 "sticker" = .error e ∧
        e.isValidation = true) ∧
      (expandMediaKeyT hmac0 key43 "sticker").2 = []) :=
  ⟨(expandMediaKey_validation hmac0 "c2hvcnQ" ("image")).1 (by decide),
   (expandMediaKey_validation hmac0 key43 "sticker").2.1 (by decide)⟩

/-- C9: determinism of key expansion.  Two successful calls of expandMediaKey
on byte-identical inputs return key sets that agree on every field; the
embedding is a pure function of its inputs, with no randomness or per-call
state. -/
theorem expandMediaKey_deterministic
    (hmac : List Nat → List Nat → List Nat) (s cat : String)
    (ks₁ ks₂ : ExpandedKeySet)
    (h₁ : expandMediaKey hmac s cat = .ok ks₁)
    (h₂ : expandMediaKey hmac s cat = .ok ks₂) :
    ks₁.cipherKey = ks₂.cipherKey ∧ ks₁.macKey = ks₂.macKey ∧ ks₁.iv = ks₂.iv := by
  rw [h₁] at h₂
  simp only [Except.ok.injEq] at h₂
  subst h₂
  exact ⟨rfl, rfl, rfl⟩

/-- Closed witness for C9: two evaluations of expandMediaKey at the same
concrete input, shown equal field by field through the theorem. -/
theorem expandMediaKey_deterministic_witness :
    keys0.cipherKey = keys0.cipherKey ∧ keys0.macKey = keys0.macKey ∧
      keys0.iv = keys0.iv :=
  expandMediaKey_deterministic hmac0 key43 ("image") keys0 keys0 rfl rfl

/-- C10: lenient base64 acceptance.  expandMediaKey never fails on base64
decoding itself: every run either succeeds or fails with the key-length
ValidationError or the category ValidationError; and there is a malformed
base64 string (a stray non-alphabet character prepended to 43 alphabet
characters) whose lenient decoding has 32 bytes, on which expandMediaKey
succeeds. -/
theorem expandMediaKey_lenient_base64 (hmac : List Nat → List Nat → List Nat) :
    (∀ s cat, (∃ ks, expandMediaKey hmac s cat = .ok ks) ∨
      (expandMediaKey hmac s cat = .error (.badKeyLength (decodeBase64 s).length) ∧
        (decodeBase64 s).length ≠ 32) ∨
      (expandMediaKey hmac s cat = .error (.badMediaType cat) ∧
        applicationInfo cat = none)) ∧
    (∃ ks, expandMediaKey hmac key44Bang ("image") = .ok ks) := by
  constructor
  · intro s cat
    by_cases h32 : (decodeBase64 s).length = 32
    · cases hinfo : applicationInfo cat with
      | none =>
          refine Or.inr (Or.inr ⟨?_, rfl⟩)
          rw [expandMediaKey]
          dsimp only
          rw [if_neg (not_not_intro h32), hinfo]
      | some info =>
          refine Or.inl ⟨ExpandedKeySet.mk
            (jsSlice (hkdfSync hmac (decodeBase64 s)
              (List.replicate 32 0) (strBytes info) 112) 0 32)
            (jsSlice (hkdfSync hmac (decodeBase64 s)
              (List.replicate 32 0) (strBytes info) 112) 32 64)
            (jsSlice (hkdfSync hmac (decodeBase64 s)
              (List.replicate 32 0) (strBytes info) 112) 64 80), ?_⟩
          rw [expandMediaKey]
          dsimp only
          rw [if_neg (not_not_intro h32), hinfo]
    · refine Or.inr (Or.inl ⟨?_, h32⟩)
      rw [expandMediaKey]
      dsimp only
      rw [if_pos h32]
  · refine ⟨ExpandedKeySet.mk
      (jsSlice (hkdfSync hmac (decodeBase64 key44Bang)
        (List.replicate 32 0) (strBytes ("WhatsApp Image Keys")) 112) 0 32)
      (jsSlice (hkdfSync hmac (decodeBase64 key44Bang)
        (List.replicate 32 0) (strBytes ("WhatsApp Image Keys")) 112) 32 64)
      (jsSlice (hkdfSync hmac (decodeBase64 key44Bang)
        (List.replicate 32 0) (strBytes ("WhatsApp Image Keys")) 112) 64 80), ?_⟩
    rw [expandMediaKey]
    dsimp only
    rw [if_neg (not_not_intro
      (by decide : (decodeBase64 key44Bang).length = 32))]
    rw [show applicationInfo ("image") = some ("WhatsApp Image Keys") by decide]

/-- C6: fetcher retry discipline.  If every attempt fails, downloadMedia
makes exactly retries attempts, sleeps backoff delays summing to
retryDelay * (1 + 2 + ... + (retries - 1)), and raises a NetworkError
wrapping the cause of the last attempt; and if the first success comes at
attempt k, the fully received body is returned immediately after exactly k
attempts with no further ones. -/
theorem downloadMedia_retry_discipline
    (oracle : Nat → Except String (List Nat)) (retries retryDelay : Nat)
    (h1 : 1 ≤ retries) :
    ((∀ i, 1 ≤ i → i ≤ retries → ∃ m, oracle i = .error m) →
      ∀ c, oracle retries = .error c →
        (downloadMedia oracle retries retryDelay).result =
          .error (.network (some c)) ∧
        (downloadMedia oracle retries retryDelay).attempts = retries ∧
        (downloadMedia oracle retries retryDelay).delays.sum =
          retryDelay * (List.range retries).sum) ∧
    (∀ k buf, 1 ≤ k → k ≤ retries →
      (∀ i, 1 ≤ i → i < k → ∃ m, oracle i = .error m) →
      oracle k = .ok buf →
      (downloadMedia oracle retries retryDelay).result = .ok buf ∧
      (downloadMedia oracle retries retryDelay).attempts = k) := by
  constructor
  · intro hfail c hc
    have h := downloadGo_all_fail oracle retryDelay retries 1 none c h1
      (fun i hi1 hi2 => hfail i hi1 (by omega))
      (by rw [show 1 + retries - 1 = retries by omega]; exact hc)
    rw [downloadMedia, h]
    refine ⟨rfl, rfl, ?_⟩
    dsimp only
    rw [sum_map_mul retryDelay, range'_one_sum_eq_range_sum retries h1]
  · intro k buf hk1 hk2 hfail hok
    have h := downloadGo_success oracle retryDelay retries 1 k none buf hk1
      (by omega) (fun i hi1 hi2 => hfail i hi1 hi2) hok
    rw [downloadMedia, h]
    exact ⟨rfl, by dsimp only; omega⟩

/-- The oracle of an endpoint failing every attempt with HTTP 500. -/
def oracleFail : Nat → Except String (List Nat) :=
  fun _ => .error ("HTTP 500")

/-- Closed witness for C6: three failing attempts at retryDelay 1000 make
exactly 3 attempts, sleep 1000 + 2000 in total, and wrap the final cause. -/
theorem downloadMedia_retry_discipline_witness :
    (downloadMedia oracleFail 3 1000).result =
      .error (.network (some ("HTTP 500"))) ∧
    (downloadMedia oracleFail 3 1000).attempts = 3 ∧
    (downloadMedia oracleFail 3 1000).delays.sum =
      1000 * (List.range 3).sum :=
  (downloadMedia_retry_discipline oracleFail 3 1000 (by decide)).1
    (fun i _ _ => ⟨"HTTP 500", rfl⟩) ("HTTP 500") rfl

/-- The oracle of an endpoint that immediately returns a gigabyte-sized
response body. -/
def bigOracle : Nat → Except String (List Nat) :=
  fun _ => .ok (List.replicate 1073741824 0)

/-- C7 counterexample: downloadMedia imposes no response size cap.  A fully
received response of 2^30 bytes — far above the only size constant configured
anywhere in the service (the 104857600-byte request body limit) — is returned
whole as a success, not turned into a NetworkError. -/
theorem downloadMedia_no_size_cap_counterexample :
    (downloadMedia bigOracle 3 1000).result =
      .ok (List.replicate 1073741824 0) ∧
    104857600 < (List.replicate 1073741824 0).length := by
  constructor
  · rw [downloadMedia, downloadGo_succ,
      show bigOracle 1 = .ok (List.replicate 1073741824 0) from rfl]
  · rw [List.length_replicate]
    decide

/-- C7 amended: downloadMedia enforces no maximum response size; any fully
received response body is returned intact regardless of its size, never
truncated and never rejected with a NetworkError. -/
theorem downloadMedia_returns_full_response
    (oracle : Nat → Except String (List Nat)) (retries retryDelay : Nat)
    (buf : List Nat) (h1 : 1 ≤ retries) (hok : oracle 1 = .ok buf) :
    (downloadMedia oracle retries retryDelay).result = .ok buf := by
  obtain ⟨r, rfl⟩ : ∃ r, retries = r + 1 := ⟨retries - 1, by omega⟩
  rw [downloadMedia, downloadGo_succ, hok]

/-- Closed witness for the amended C7: a concrete response returned whole. -/
theorem downloadMedia_returns_full_response_witness :
    (downloadMedia (fun _ => .ok [1, 2, 3]) 3 1000).result = .ok [1, 2, 3] :=
  downloadMedia_returns_full_response (fun _ => .ok [1, 2, 3]) 3 1000
    [1, 2, 3] (by decide) rfl

/-- C8 counterexample: the lookup tables do not behave as the claim states.
The document category maps to application/pdf and .pdf rather than
application/octet-stream and .bin, and an unrecognized category is silently
defaulted to the generic binary type instead of failing like expandMediaKey
does. -/
theorem media_lookup_counterexample :
    getContentType ("document") = "application/pdf" ∧
    getContentType ("document") ≠ "application/octet-stream" ∧
    getFileExtension ("document") = "pdf" ∧
    getFileExtension ("document") ≠ "bin" ∧
    getContentType ("sticker") = "application/octet-stream" ∧
    getFileExtension ("sticker") = "bin" := by
  refine ⟨rfl, by decide, rfl, by decide, rfl, rfl⟩

/-- C8 amended: getContentType and getFileExtension map
image to image/jpeg and .jpg, video to video/mp4 and .mp4, audio to
audio/mpeg and .mp3, document to application/pdf and .pdf, and silently
default every category outside the four known ones to
application/octet-stream and .bin instead of failing. -/
theorem media_lookup_tables (t : String) :
    (getContentType ("image") = "image/jpeg" ∧
      getFileExtension ("image") = "jpg") ∧
    (getContentType ("video") = "video/mp4" ∧
      getFileExtension ("video") = "mp4") ∧
    (getContentType ("audio") = "audio/mpeg" ∧
      getFileExtension ("audio") = "mp3") ∧
    (getContentType ("document") = "application/pdf" ∧
      getFileExtension ("document") = "pdf") ∧
    (t ≠ "image" → t ≠ "video" → t ≠ "audio" → t ≠ "document" →
      getContentType t = "application/octet-stream" ∧
      getFileExtension t = "bin") := by
  refine ⟨⟨rfl, rfl⟩, ⟨rfl, rfl⟩, ⟨rfl, rfl⟩, ⟨rfl, rfl⟩, ?_⟩
  intro h1 h2 h3 h4
  constructor
  · rw [getContentType, if_neg h1, if_neg h2, if_neg h3, if_neg h4]
  · rw [getFileExtension, if_neg h1, if_neg h2, if_neg h3, if_neg h4]

/-- Closed witness for the amended C8: the silent default at a concrete
unrecognized category. -/
theorem media_lookup_tables_witness :
    getContentType ("webp") = "application/octet-stream" ∧
    getFileExtension ("webp") = "bin" :=
  (media_lookup_tables ("webp")).2.2.2.2
    (by decide) (by decide) (by decide) (by decide)

/-- C2: key zeroization.  The claim is refuted by the code: the POST /decrypt
route handler never invokes secureKeyCleanup on any exit path — the
instrumented trace of every execution contains zero cleanup events, where
the claim requires exactly one — shown universally and evaluated concretely
on a run whose fetch succeeds and whose decryption fails. -/
theorem decryptHandler_no_cleanup :
    (∀ (hmac aesDec : List Nat → List Nat → List Nat) (mk mt : String)
      (fr : FetchOutcome),
      (decryptHandler hmac aesDec mk mt fr).2.count .cleanupEv = 0) ∧
    ((decryptHandler hmac0 aesId key43 ("image") (.ok [1, 2])).1 =
      .unprocessable ∧
     (decryptHandler hmac0 aesId key43 ("image") (.ok [1, 2])).2.count
        .cleanupEv = 0) := by
  constructor
  · intro hmac aesDec mk mt fr
    rw [decryptHandler]
    cases hexp : expandMediaKey hmac mk mt with
    | error e => rfl
    | ok keys =>
        cases fr with
        | httpError s => rfl
        | transportError code => rfl
        | ok body =>
            dsimp only
            cases hdec : decryptData hmac aesDec body keys with
            | error e => rfl
            | ok pt => rfl
  · exact ⟨rfl, rfl⟩
